import Mathlib

/-!
Shallow embedding of the Connect-4 engine in `ai_studio_code.py`
(board model, win detection, heuristic evaluation, minimax search),
together with theorems checking the natural-language specification
against this embedding.

Boards are modelled as total functions `Nat → Nat → Cell`; the Python
code only ever reads indices with `row < ROW_COUNT` and
`col < COLUMN_COUNT`.  Python's `float('-inf')`/`float('inf')`
initial values in `minimax` are modelled by the three-valued score
type `XScore`.  The call `random.choice(valid_locations)` is modelled
by an explicit choice function `rng : List Nat → Nat` passed to
`minimax`; `random.choice` always returns a member of its (nonempty)
argument, which appears as the hypothesis `∀ l, l ≠ [] → rng l ∈ l`
where it is needed.
-/

/-- A cell of the grid: `'X'` (human), `'O'` (computer), `'-'` (empty). -/
inductive Cell : Type
  | X : Cell
  | O : Cell
  | Dash : Cell
deriving DecidableEq

/-- `PLAYER_PIECE = 'X'`. -/
def PLAYER_PIECE : Cell := Cell.X

/-- `AI_PIECE = 'O'`. -/
def AI_PIECE : Cell := Cell.O

/-- `EMPTY = '-'`. -/
def EMPTY : Cell := Cell.Dash

/-- `ROW_COUNT = 6`. -/
def ROW_COUNT : Nat := 6

/-- `COLUMN_COUNT = 7`. -/
def COLUMN_COUNT : Nat := 7

/-- `WINDOW_LENGTH = 4`. -/
def WINDOW_LENGTH : Nat := 4

/-- A board, read as `board r c` for `board[r][c]` (row 0 is the bottom). -/
def Board : Type := Nat → Nat → Cell

/-- `create_board`: a 6x7 grid filled with `EMPTY`. -/
def create_board : Board := fun _ _ => EMPTY

/-- `drop_piece(board, row, col, piece)`: functional update of one cell
(the Python version mutates `board` in place). -/
def drop_piece (board : Board) (row col : Nat) (piece : Cell) : Board :=
  fun r c => if r = row ∧ c = col then piece else board r c

/-- `is_valid_location(board, col)`: the top row of `col` is empty. -/
def is_valid_location (board : Board) (col : Nat) : Bool :=
  board (ROW_COUNT - 1) col == EMPTY

/-- `get_next_open_row(board, col)`: first row index `r` (from the bottom)
with `board[r][col] == EMPTY`; Python implicitly returns `None` when the
column is full, modelled by `Option`. -/
def get_next_open_row (board : Board) (col : Nat) : Option Nat :=
  (List.range ROW_COUNT).find? (fun r => board r col == EMPTY)

/-- `get_valid_locations(board)`: the columns `c` in `range(COLUMN_COUNT)`
with `is_valid_location(board, c)`, in the order produced by the loop. -/
def get_valid_locations (board : Board) : List Nat :=
  (List.range COLUMN_COUNT).filter (fun col => is_valid_location board col)

/-- `winning_move(board, piece)`: scans horizontals, verticals, positively
sloped and negatively sloped diagonals for four aligned copies of `piece`. -/
def winning_move (board : Board) (piece : Cell) : Bool :=
  ((List.range (COLUMN_COUNT - 3)).any fun c =>
    (List.range ROW_COUNT).any fun r =>
      board r c == piece && board r (c+1) == piece &&
      board r (c+2) == piece && board r (c+3) == piece) ||
  ((List.range COLUMN_COUNT).any fun c =>
    (List.range (ROW_COUNT - 3)).any fun r =>
      board r c == piece && board (r+1) c == piece &&
      board (r+2) c == piece && board (r+3) c == piece) ||
  ((List.range (COLUMN_COUNT - 3)).any fun c =>
    (List.range (ROW_COUNT - 3)).any fun r =>
      board r c == piece && board (r+1) (c+1) == piece &&
      board (r+2) (c+2) == piece && board (r+3) (c+3) == piece) ||
  ((List.range (COLUMN_COUNT - 3)).any fun c =>
    (List.range' 3 (ROW_COUNT - 3)).any fun r =>
      board r c == piece && board (r-1) (c+1) == piece &&
      board (r-2) (c+2) == piece && board (r-3) (c+3) == piece)

/-- `is_terminal_node(board)`: either side has won or no valid moves remain. -/
def is_terminal_node (board : Board) : Bool :=
  winning_move board PLAYER_PIECE || winning_move board AI_PIECE ||
    (get_valid_locations board).length == 0

/-- `evaluate_window(window, piece)`: the per-window scoring table.  The
`+100 / +5 / +2` cases form an `if`/`elif`/`elif` chain; the `−4`
opponent-threat penalty is a separate, unconditional `if` applied on top. -/
def evaluate_window (window : List Cell) (piece : Cell) : Int :=
  let opp_piece : Cell := if piece == PLAYER_PIECE then AI_PIECE else PLAYER_PIECE
  let score : Int :=
    if window.count piece == 4 then 100
    else if window.count piece == 3 && window.count EMPTY == 1 then 5
    else if window.count piece == 2 && window.count EMPTY == 2 then 2
    else 0
  if window.count opp_piece == 3 && window.count EMPTY == 1 then score - 4
  else score

/-- `score_position(board, piece)`: 3 points per `piece` in the center
column, plus `evaluate_window` summed over every horizontal, vertical,
positively sloped diagonal and negatively sloped diagonal 4-window. -/
def score_position (board : Board) (piece : Cell) : Int :=
  let center_count : Nat :=
    ((List.range ROW_COUNT).map (fun r => board r (COLUMN_COUNT / 2))).count piece
  let centerScore : Int := (center_count : Int) * 3
  let horiz : Int :=
    ((List.range ROW_COUNT).map (fun r =>
      ((List.range (COLUMN_COUNT - 3)).map (fun c =>
        evaluate_window ((List.range WINDOW_LENGTH).map (fun i => board r (c+i))) piece)).sum)).sum
  let vert : Int :=
    ((List.range COLUMN_COUNT).map (fun c =>
      ((List.range (ROW_COUNT - 3)).map (fun r =>
        evaluate_window ((List.range WINDOW_LENGTH).map (fun i => board (r+i) c)) piece)).sum)).sum
  let posDiag : Int :=
    ((List.range (ROW_COUNT - 3)).map (fun r =>
      ((List.range (COLUMN_COUNT - 3)).map (fun c =>
        evaluate_window ((List.range WINDOW_LENGTH).map (fun i => board (r+i) (c+i))) piece)).sum)).sum
  let negDiag : Int :=
    ((List.range (ROW_COUNT - 3)).map (fun r =>
      ((List.range (COLUMN_COUNT - 3)).map (fun c =>
        evaluate_window ((List.range WINDOW_LENGTH).map (fun i => board (r+3-i) (c+i))) piece)).sum)).sum
  centerScore + horiz + vert + posDiag + negDiag

/-- Score values in `minimax`: Python mixes integer scores with the float
initializations `-math.inf` and `math.inf`. -/
inductive XScore : Type
  | negInf : XScore
  | fin : Int → XScore
  | posInf : XScore
deriving DecidableEq

/-- Strict comparison on `XScore`, matching Python comparison between
ints and the infinities. -/
def XScore.lt : XScore → XScore → Bool
  | XScore.negInf, XScore.negInf => false
  | XScore.negInf, _ => true
  | XScore.fin _, XScore.negInf => false
  | XScore.fin a, XScore.fin b => a < b
  | XScore.fin _, XScore.posInf => true
  | XScore.posInf, _ => false

/-- The terminal branch of `minimax`: AI win, player win, or draw. -/
def terminal_score (board : Board) : Option Nat × XScore :=
  if winning_move board AI_PIECE then (none, XScore.fin 100000000000000)
  else if winning_move board PLAYER_PIECE then (none, XScore.fin (-10000000000000))
  else (none, XScore.fin 0)

/-- One step of the maximizing loop body of `minimax`. -/
def maxStep (board : Board) (recur : Board → Option Nat × XScore)
    (acc : Option Nat × XScore) (col : Nat) : Option Nat × XScore :=
  let row := (get_next_open_row board col).getD 0
  let b_copy := drop_piece board row col AI_PIECE
  let new_score := (recur b_copy).2
  if XScore.lt acc.2 new_score then (some col, new_score) else acc

/-- One step of the minimizing loop body of `minimax`. -/
def minStep (board : Board) (recur : Board → Option Nat × XScore)
    (acc : Option Nat × XScore) (col : Nat) : Option Nat × XScore :=
  let row := (get_next_open_row board col).getD 0
  let b_copy := drop_piece board row col PLAYER_PIECE
  let new_score := (recur b_copy).2
  if XScore.lt new_score acc.2 then (some col, new_score) else acc

/-- `minimax(board, depth, maximizingPlayer)`.  The test
`depth == 0 or is_terminal` is split over the two shapes of `depth`;
`rng` models `random.choice` on the valid locations.  In the recursive
branches the board is not terminal, hence every iterated column is
valid and `get_next_open_row` returns `some` (the `getD 0` default is
never used there). -/
def minimax (rng : List Nat → Nat) : Nat → Board → Bool → Option Nat × XScore
  | 0, board, _ =>
    if is_terminal_node board then terminal_score board
    else (none, XScore.fin (score_position board AI_PIECE))
  | depth + 1, board, maximizingPlayer =>
    if is_terminal_node board then terminal_score board
    else
      let valid_locations := get_valid_locations board
      if maximizingPlayer then
        valid_locations.foldl
          (maxStep board (fun b => minimax rng depth b false))
          (some (rng valid_locations), XScore.negInf)
      else
        valid_locations.foldl
          (minStep board (fun b => minimax rng depth b true))
          (some (rng valid_locations), XScore.posInf)

/-- A fixed choice function used to instantiate `rng` in witnesses. -/
def rngFirst : List Nat → Nat := fun l => l.headD 0

/-- A second choice function (last element) used in witnesses. -/
def rngLast : List Nat → Nat := fun l => l.getLastD 0

/-- The per-window scoring table as the spec states it: the own-pattern
cases chained, the opponent-threat penalty added as an independent term. -/
def evaluate_window_claim (window : List Cell) (piece : Cell) : Int :=
  let opp_piece : Cell := if piece == PLAYER_PIECE then AI_PIECE else PLAYER_PIECE
  (if window.count piece == 4 then 100
   else if window.count piece == 3 && window.count EMPTY == 1 then 5
   else if window.count piece == 2 && window.count EMPTY == 2 then 2
   else 0) +
  (if window.count opp_piece == 3 && window.count EMPTY == 1 then (-4 : Int) else 0)

/-- All horizontal length-4 windows of the board. -/
def horizontal_windows (board : Board) : List (List Cell) :=
  (List.range ROW_COUNT).flatMap fun r =>
    (List.range (COLUMN_COUNT - 3)).map fun c =>
      (List.range WINDOW_LENGTH).map fun i => board r (c+i)

/-- All vertical length-4 windows of the board. -/
def vertical_windows (board : Board) : List (List Cell) :=
  (List.range COLUMN_COUNT).flatMap fun c =>
    (List.range (ROW_COUNT - 3)).map fun r =>
      (List.range WINDOW_LENGTH).map fun i => board (r+i) c

/-- All positively sloped diagonal length-4 windows of the board. -/
def pos_diag_windows (board : Board) : List (List Cell) :=
  (List.range (ROW_COUNT - 3)).flatMap fun r =>
    (List.range (COLUMN_COUNT - 3)).map fun c =>
      (List.range WINDOW_LENGTH).map fun i => board (r+i) (c+i)

/-- All negatively sloped diagonal length-4 windows of the board. -/
def neg_diag_windows (board : Board) : List (List Cell) :=
  (List.range (ROW_COUNT - 3)).flatMap fun r =>
    (List.range (COLUMN_COUNT - 3)).map fun c =>
      (List.range WINDOW_LENGTH).map fun i => board (r+3-i) (c+i)

/-- The center column (column 3) of the board, bottom to top. -/
def center_column (board : Board) : List Cell :=
  (List.range ROW_COUNT).map fun r => board r 3

/-- The heuristic as the spec states it: `evaluate_window` summed over
every window of the four kinds, plus 3 per own piece in the center
column, added exactly once. -/
def score_position_claim (board : Board) (piece : Cell) : Int :=
  (((horizontal_windows board ++ vertical_windows board ++
     pos_diag_windows board ++ neg_diag_windows board).map
    (fun w => evaluate_window w piece)).sum) +
  3 * ((center_column board).count piece : Int)

/-- 180-degree rotation of the board: both the row order and the column
order are reversed. -/
def rotate180 (board : Board) : Board :=
  fun r c => board (ROW_COUNT - 1 - r) (COLUMN_COUNT - 1 - c)

/-- The gravity invariant: in every column the occupied cells are
contiguous from row 0 upward. -/
def gravity_invariant (board : Board) : Prop :=
  ∀ c < COLUMN_COUNT, ∀ r < ROW_COUNT - 1,
    board (r+1) c ≠ EMPTY → board r c ≠ EMPTY

/-- A board on which the human player has a horizontal four-in-a-row. -/
def boardPlayerWin : Board :=
  fun r c => if r = 0 ∧ c < 4 then PLAYER_PIECE else EMPTY

/-- A board on which the computer has a horizontal four-in-a-row. -/
def boardAIWin : Board :=
  fun r c => if r = 0 ∧ c < 4 then AI_PIECE else EMPTY

/-- A board on which both sides have a four-in-a-row at once. -/
def boardBothWin : Board :=
  fun r c =>
    if r = 0 ∧ c < 4 then PLAYER_PIECE
    else if c = 6 ∧ r < 4 then AI_PIECE
    else EMPTY

/-- `random.choice` modelled by `rngFirst` picks a member of its argument. -/
theorem rngFirst_mem (l : List Nat) (h : l ≠ []) : rngFirst l ∈ l := by
  cases l with
  | nil => exact absurd rfl h
  | cons a t => simp [rngFirst]

/-- On a terminal board, `minimax` lands in the terminal branch at every
depth and for either player flag. -/
theorem minimax_terminal (rng : List Nat → Nat) (d : Nat) (b : Board) (m : Bool)
    (h : is_terminal_node b = true) : minimax rng d b m = terminal_score b := by
  cases d <;> simp [minimax, h]

/-- A non-terminal board has at least one valid location. -/
theorem valid_ne_nil_of_not_terminal (b : Board) (h : is_terminal_node b = false) :
    get_valid_locations b ≠ [] := by
  intro hnil
  simp [is_terminal_node, hnil] at h

/-- C3: on a non-terminal board at depth 0, `minimax` returns no column and
the heuristic score of the board for the computer's piece, for either value
of the maximizing flag. -/
theorem minimax_depth_zero_heuristic (rng : List Nat → Nat) (b : Board) (m : Bool)
    (h : is_terminal_node b = false) :
    minimax rng 0 b m = (none, XScore.fin (score_position b AI_PIECE)) := by
  simp [minimax, h]

/-- Witness for C3 at the empty board with the maximizing flag. -/
theorem minimax_depth_zero_heuristic_witness :
    minimax rngFirst 0 create_board true =
      (none, XScore.fin (score_position create_board AI_PIECE)) :=
  minimax_depth_zero_heuristic rngFirst create_board true (by decide)

/-- C4: `evaluate_window` realizes the spec's scoring table: the chained
own-pattern cases plus the independently applied opponent-threat penalty. -/
theorem evaluate_window_table (w : List Cell) (p : Cell) (hlen : w.length = 4) :
    evaluate_window w p = evaluate_window_claim w p := by
  simp only [evaluate_window, evaluate_window_claim]
  split_ifs <;> ring

/-- C8: the valid locations are exactly the columns below `COLUMN_COUNT`
whose top cell (row 5) is empty, and the returned list is strictly
ascending. -/
theorem get_valid_locations_spec (b : Board) (c : Nat) :
    (c ∈ get_valid_locations b ↔ c < COLUMN_COUNT ∧ b 5 c = EMPTY) ∧
    List.Pairwise (fun a b => a < b) (get_valid_locations b) := by
  constructor
  · simp [get_valid_locations, List.mem_filter, List.mem_range, is_valid_location,
      ROW_COUNT]
  · exact List.Pairwise.sublist (List.filter_sublist _) (List.pairwise_lt_range _)

/-- Summing `f` over a flattened list of lists equals the nested sum. -/
theorem sum_map_flatMap {α β : Type} (l : List α) (g : α → List β) (f : β → Int) :
    ((l.flatMap g).map f).sum = (l.map fun x => ((g x).map f).sum).sum := by
  induction l with
  | nil => simp
  | cons a t ih => simp [List.flatMap_cons, ih]

/-- C5: `score_position` is the sum of `evaluate_window` over all
horizontal, vertical and both diagonal windows, plus 3 per own piece in
the center column, added exactly once. -/
theorem score_position_decomposition (b : Board) (p : Cell) :
    score_position b p = score_position_claim b p := by
  simp only [score_position, score_position_claim, horizontal_windows,
    vertical_windows, pos_diag_windows, neg_diag_windows, center_column,
    List.map_append, List.sum_append, sum_map_flatMap]
  norm_num [COLUMN_COUNT, Function.comp_def]
  ring

/-- Bounds on a mapped sum from uniform bounds on the entries. -/
theorem list_sum_map_bounds {α : Type} (f : α → Int) (lo hi : Int) :
    ∀ l : List α, (∀ x ∈ l, lo ≤ f x ∧ f x ≤ hi) →
      lo * l.length ≤ (l.map f).sum ∧ (l.map f).sum ≤ hi * l.length := by
  intro l
  induction l with
  | nil => simp
  | cons a t ih =>
    intro h
    have ha := h a (by simp)
    have ht := ih (fun x hx => h x (by simp [hx]))
    simp only [List.map_cons, List.sum_cons, List.length_cons]
    push_cast
    constructor <;> nlinarith [ha.1, ha.2, ht.1, ht.2]

/-- Every window contributes between −4 and +100. -/
theorem evaluate_window_bounds (w : List Cell) (p : Cell) :
    -4 ≤ evaluate_window w p ∧ evaluate_window w p ≤ 100 := by
  simp only [evaluate_window]
  split_ifs <;> norm_num

/-- Bounds on a doubly-nested window sum of `evaluate_window`. -/
theorem window_grid_sum_bounds (p : Cell) (nR nC : Nat) (wf : Nat → Nat → List Cell) :
    (-4 : Int) * nC * nR ≤
      ((List.range nR).map (fun r =>
        ((List.range nC).map (fun c => evaluate_window (wf r c) p)).sum)).sum ∧
    ((List.range nR).map (fun r =>
      ((List.range nC).map (fun c => evaluate_window (wf r c) p)).sum)).sum ≤
        (100 : Int) * nC * nR := by
  have inner : ∀ r : Nat,
      (-4 : Int) * nC ≤ ((List.range nC).map (fun c => evaluate_window (wf r c) p)).sum ∧
      ((List.range nC).map (fun c => evaluate_window (wf r c) p)).sum ≤ (100 : Int) * nC := by
    intro r
    have := list_sum_map_bounds (fun c => evaluate_window (wf r c) p) (-4) 100
      (List.range nC) (fun x _ => evaluate_window_bounds _ _)
    simpa [List.length_range] using this
  have := list_sum_map_bounds
    (fun r => ((List.range nC).map (fun c => evaluate_window (wf r c) p)).sum)
    ((-4) * nC) (100 * nC) (List.range nR) (fun r _ => inner r)
  simpa [List.length_range] using this

/-- The heuristic is bounded: between −276 and 6918 on every board. -/
theorem score_position_bounds (b : Board) (p : Cell) :
    -276 ≤ score_position b p ∧ score_position b p ≤ 6918 := by
  have hh := window_grid_sum_bounds p ROW_COUNT (COLUMN_COUNT - 3)
    (fun r c => (List.range WINDOW_LENGTH).map fun i => b r (c+i))
  have hv := window_grid_sum_bounds p COLUMN_COUNT (ROW_COUNT - 3)
    (fun c r => (List.range WINDOW_LENGTH).map fun i => b (r+i) c)
  have hp := window_grid_sum_bounds p (ROW_COUNT - 3) (COLUMN_COUNT - 3)
    (fun r c => (List.range WINDOW_LENGTH).map fun i => b (r+i) (c+i))
  have hn := window_grid_sum_bounds p (ROW_COUNT - 3) (COLUMN_COUNT - 3)
    (fun r c => (List.range WINDOW_LENGTH).map fun i => b (r+3-i) (c+i))
  have hcount : (((List.range ROW_COUNT).map (fun r => b r (COLUMN_COUNT / 2))).count p : Int) ≤ 6 := by
    have := List.count_le_length p ((List.range ROW_COUNT).map (fun r => b r (COLUMN_COUNT / 2)))
    simp only [List.length_map, List.length_range, ROW_COUNT] at this
    exact_mod_cast this
  have hcount0 : (0 : Int) ≤ (((List.range ROW_COUNT).map (fun r => b r (COLUMN_COUNT / 2))).count p : Int) := by
    positivity
  simp only [score_position]
  norm_num [ROW_COUNT, COLUMN_COUNT] at hh hv hp hn hcount hcount0 ⊢
  constructor <;> linarith

/-- `terminal_score` never proposes a column. -/
theorem terminal_score_col (b : Board) : (terminal_score b).1 = none := by
  unfold terminal_score
  split_ifs <;> rfl

/-- A maximizing fold step keeps the score finite. -/
theorem foldl_maxStep_fin (board : Board) (recur : Board → Option Nat × XScore)
    (hrec : ∀ b, ∃ n, (recur b).2 = XScore.fin n) :
    ∀ (l : List Nat) (acc : Option Nat × XScore), (∃ n, acc.2 = XScore.fin n) →
      ∃ n, (l.foldl (maxStep board recur) acc).2 = XScore.fin n := by
  intro l
  induction l with
  | nil => intro acc h; simpa using h
  | cons a t ih =>
    intro acc h
    rw [List.foldl_cons]
    apply ih
    obtain ⟨n, hn⟩ := h
    obtain ⟨k, hk⟩ := hrec (drop_piece board ((get_next_open_row board a).getD 0) a AI_PIECE)
    simp only [maxStep]
    split_ifs <;> simp [hn, hk]

/-- A minimizing fold step keeps the score finite. -/
theorem foldl_minStep_fin (board : Board) (recur : Board → Option Nat × XScore)
    (hrec : ∀ b, ∃ n, (recur b).2 = XScore.fin n) :
    ∀ (l : List Nat) (acc : Option Nat × XScore), (∃ n, acc.2 = XScore.fin n) →
      ∃ n, (l.foldl (minStep board recur) acc).2 = XScore.fin n := by
  intro l
  induction l with
  | nil => intro acc h; simpa using h
  | cons a t ih =>
    intro acc h
    rw [List.foldl_cons]
    apply ih
    obtain ⟨n, hn⟩ := h
    obtain ⟨k, hk⟩ := hrec (drop_piece board ((get_next_open_row board a).getD 0) a PLAYER_PIECE)
    simp only [minStep]
    split_ifs <;> simp [hn, hk]

/-- From the `-inf` start, a nonempty maximizing fold reaches a finite score. -/
theorem foldl_maxStep_fin_of_ne_nil (board : Board) (recur : Board → Option Nat × XScore)
    (hrec : ∀ b, ∃ n, (recur b).2 = XScore.fin n) (l : List Nat) (hl : l ≠ [])
    (c0 : Option Nat) :
    ∃ n, (l.foldl (maxStep board recur) (c0, XScore.negInf)).2 = XScore.fin n := by
  cases l with
  | nil => exact absurd rfl hl
  | cons a t =>
    rw [List.foldl_cons]
    apply foldl_maxStep_fin board recur hrec
    obtain ⟨k, hk⟩ := hrec (drop_piece board ((get_next_open_row board a).getD 0) a AI_PIECE)
    simp [maxStep, hk, XScore.lt]

/-- From the `+inf` start, a nonempty minimizing fold reaches a finite score. -/
theorem foldl_minStep_fin_of_ne_nil (board : Board) (recur : Board → Option Nat × XScore)
    (hrec : ∀ b, ∃ n, (recur b).2 = XScore.fin n) (l : List Nat) (hl : l ≠ [])
    (c0 : Option Nat) :
    ∃ n, (l.foldl (minStep board recur) (c0, XScore.posInf)).2 = XScore.fin n := by
  cases l with
  | nil => exact absurd rfl hl
  | cons a t =>
    rw [List.foldl_cons]
    apply foldl_minStep_fin board recur hrec
    obtain ⟨k, hk⟩ := hrec (drop_piece board ((get_next_open_row board a).getD 0) a PLAYER_PIECE)
    simp [minStep, hk, XScore.lt]

/-- The score returned by `minimax` is always a finite integer: the
infinite initial values never escape the loops. -/
theorem minimax_fin (rng : List Nat → Nat) :
    ∀ (d : Nat) (b : Board) (m : Bool), ∃ n, (minimax rng d b m).2 = XScore.fin n := by
  intro d
  induction d with
  | zero =>
    intro b m
    by_cases h : is_terminal_node b = true
    · rw [minimax_terminal rng 0 b m h]
      unfold terminal_score
      split_ifs <;> exact ⟨_, rfl⟩
    · rw [Bool.not_eq_true] at h
      rw [minimax_depth_zero_heuristic rng b m h]
      exact ⟨_, rfl⟩
  | succ d ih =>
    intro b m
    by_cases h : is_terminal_node b = true
    · rw [minimax_terminal rng (d+1) b m h]
      unfold terminal_score
      split_ifs <;> exact ⟨_, rfl⟩
    · rw [Bool.not_eq_true] at h
      have hne := valid_ne_nil_of_not_terminal b h
      cases m
      · simp only [minimax, h]
        simpa using foldl_minStep_fin_of_ne_nil b _ (fun bb => ih bb true)
          (get_valid_locations b) hne _
      · simp only [minimax, h]
        simpa using foldl_maxStep_fin_of_ne_nil b _ (fun bb => ih bb false)
          (get_valid_locations b) hne _

/-- The first maximizing step from the `-inf` start overwrites the initial
column, whatever it was. -/
theorem maxStep_negInf_eq (board : Board) (recur : Board → Option Nat × XScore)
    (hrec : ∀ b, ∃ n, (recur b).2 = XScore.fin n) (x y : Option Nat) (c : Nat) :
    maxStep board recur (x, XScore.negInf) c = maxStep board recur (y, XScore.negInf) c := by
  obtain ⟨n, hn⟩ := hrec (drop_piece board ((get_next_open_row board c).getD 0) c AI_PIECE)
  simp [maxStep, hn, XScore.lt]

/-- The first minimizing step from the `+inf` start overwrites the initial
column, whatever it was. -/
theorem minStep_posInf_eq (board : Board) (recur : Board → Option Nat × XScore)
    (hrec : ∀ b, ∃ n, (recur b).2 = XScore.fin n) (x y : Option Nat) (c : Nat) :
    minStep board recur (x, XScore.posInf) c = minStep board recur (y, XScore.posInf) c := by
  obtain ⟨n, hn⟩ := hrec (drop_piece board ((get_next_open_row board c).getD 0) c PLAYER_PIECE)
  simp [minStep, hn, XScore.lt]

/-- The result of `minimax` does not depend on the choice function
modelling `random.choice`. -/
theorem minimax_rng_eq (rng₁ rng₂ : List Nat → Nat) :
    ∀ (d : Nat) (b : Board) (m : Bool), minimax rng₁ d b m = minimax rng₂ d b m := by
  intro d
  induction d with
  | zero => intro b m; rfl
  | succ d ih =>
    intro b m
    by_cases h : is_terminal_node b = true
    · rw [minimax_terminal rng₁ (d+1) b m h, minimax_terminal rng₂ (d+1) b m h]
    · rw [Bool.not_eq_true] at h
      have hne := valid_ne_nil_of_not_terminal b h
      obtain ⟨c, t, hl⟩ : ∃ c t, get_valid_locations b = c :: t := by
        cases hcl : get_valid_locations b with
        | nil => exact absurd hcl hne
        | cons c t => exact ⟨c, t, rfl⟩
      have hrecmax : (fun bb => minimax rng₁ d bb false) =
          (fun bb => minimax rng₂ d bb false) := funext fun bb => ih bb false
      have hrecmin : (fun bb => minimax rng₁ d bb true) =
          (fun bb => minimax rng₂ d bb true) := funext fun bb => ih bb true
      cases m
      · simp only [minimax, h, Bool.false_eq_true, if_false, hl]
        rw [List.foldl_cons, List.foldl_cons, hrecmin,
          minStep_posInf_eq b _ (fun bb => minimax_fin rng₂ d bb true)
            (some (rng₁ (c :: t))) (some (rng₂ (c :: t))) c]
      · simp only [minimax, h, if_true, hl]
        rw [List.foldl_cons, List.foldl_cons, hrecmax,
          maxStep_negInf_eq b _ (fun bb => minimax_fin rng₂ d bb false)
            (some (rng₁ (c :: t))) (some (rng₂ (c :: t))) c]

/-- The maximizing fold keeps the chosen column inside `S`. -/
theorem foldl_maxStep_col (board : Board) (recur : Board → Option Nat × XScore)
    (S : List Nat) :
    ∀ (l : List Nat) (acc : Option Nat × XScore),
      (∀ x ∈ l, x ∈ S) → (∃ c, acc.1 = some c ∧ c ∈ S) →
      ∃ c, (l.foldl (maxStep board recur) acc).1 = some c ∧ c ∈ S := by
  intro l
  induction l with
  | nil => intro acc _ h; simpa using h
  | cons a t ih =>
    intro acc hmem h
    rw [List.foldl_cons]
    apply ih _ (fun x hx => hmem x (List.mem_cons_of_mem _ hx))
    simp only [maxStep]
    split_ifs
    · exact ⟨a, rfl, hmem a (List.mem_cons_self _ _)⟩
    · exact h

/-- The minimizing fold keeps the chosen column inside `S`. -/
theorem foldl_minStep_col (board : Board) (recur : Board → Option Nat × XScore)
    (S : List Nat) :
    ∀ (l : List Nat) (acc : Option Nat × XScore),
      (∀ x ∈ l, x ∈ S) → (∃ c, acc.1 = some c ∧ c ∈ S) →
      ∃ c, (l.foldl (minStep board recur) acc).1 = some c ∧ c ∈ S := by
  intro l
  induction l with
  | nil => intro acc _ h; simpa using h
  | cons a t ih =>
    intro acc hmem h
    rw [List.foldl_cons]
    apply ih _ (fun x hx => hmem x (List.mem_cons_of_mem _ hx))
    simp only [minStep]
    split_ifs
    · exact ⟨a, rfl, hmem a (List.mem_cons_self _ _)⟩
    · exact h

/-- C2 (amended): the returned column is the sentinel `none` exactly when
the depth is 0 or the board is terminal at entry (zero valid moves being
one of the terminal conditions); whenever a column is returned it is a
member of `get_valid_locations`. -/
theorem minimax_column_validity (rng : List Nat → Nat)
    (hrng : ∀ l : List Nat, l ≠ [] → rng l ∈ l) (b : Board) (d : Nat) (m : Bool) :
    ((minimax rng d b m).1 = none ↔ (d = 0 ∨ is_terminal_node b = true)) ∧
    (∀ c, (minimax rng d b m).1 = some c → c ∈ get_valid_locations b) := by
  by_cases h : is_terminal_node b = true
  · rw [minimax_terminal rng d b m h]
    refine ⟨by simp [terminal_score_col, h], ?_⟩
    intro c hc
    rw [terminal_score_col] at hc
    cases hc
  · rw [Bool.not_eq_true] at h
    cases d with
    | zero =>
      rw [minimax_depth_zero_heuristic rng b m h]
      exact ⟨by simp, fun c hc => by simp at hc⟩
    | succ d =>
      have hne := valid_ne_nil_of_not_terminal b h
      have hinv : ∃ c, (minimax rng (d+1) b m).1 = some c ∧ c ∈ get_valid_locations b := by
        cases m
        · simp only [minimax, h, Bool.false_eq_true, if_false]
          exact foldl_minStep_col b _ (get_valid_locations b) (get_valid_locations b)
            _ (fun x hx => hx) ⟨rng _, rfl, hrng _ hne⟩
        · simp only [minimax, h, if_true]
          exact foldl_maxStep_col b _ (get_valid_locations b) (get_valid_locations b)
            _ (fun x hx => hx) ⟨rng _, rfl, hrng _ hne⟩
      obtain ⟨c0, hc0, hc0mem⟩ := hinv
      refine ⟨?_, ?_⟩
      · rw [hc0]
        simp [h]
      · intro c hc
        rw [hc0] at hc
        cases hc
        exact hc0mem

/-- Witness for C2 applied at the empty board, depth 1, maximizing. -/
theorem minimax_column_validity_witness :
    ((minimax rngFirst 1 create_board true).1 = none ↔
      (1 = 0 ∨ is_terminal_node create_board = true)) ∧
    (∀ c, (minimax rngFirst 1 create_board true).1 = some c →
      c ∈ get_valid_locations create_board) :=
  minimax_column_validity rngFirst rngFirst_mem create_board 1 true

/-- Counterexample to C2 as stated: at depth 0 on the empty board the
returned column is `none` although seven valid moves exist. -/
theorem minimax_column_none_counterexample :
    (minimax rngFirst 0 create_board true).1 = none ∧
      get_valid_locations create_board ≠ [] := by
  constructor
  · decide
  · decide

/-- C1 (amended): on terminal boards `minimax` returns no column and the
fixed values `10^14` (computer win), `−10^13` (human win) and `0` (draw);
the win and loss magnitudes differ by a factor of ten, and both strictly
dominate every achievable heuristic score. -/
theorem minimax_terminal_values (rng : List Nat → Nat) (b : Board) (d : Nat) (m : Bool)
    (hterm : is_terminal_node b = true) :
    (winning_move b AI_PIECE = true →
      minimax rng d b m = (none, XScore.fin 100000000000000)) ∧
    (winning_move b AI_PIECE = false → winning_move b PLAYER_PIECE = true →
      minimax rng d b m = (none, XScore.fin (-10000000000000))) ∧
    (winning_move b AI_PIECE = false → winning_move b PLAYER_PIECE = false →
      minimax rng d b m = (none, XScore.fin 0)) ∧
    ∀ (b' : Board) (p : Cell),
      -10000000000000 < score_position b' p ∧ score_position b' p < 100000000000000 := by
  rw [minimax_terminal rng d b m hterm]
  refine ⟨?_, ?_, ?_, ?_⟩
  · intro hA
    simp [terminal_score, hA]
  · intro hA hP
    simp [terminal_score, hA, hP]
  · intro hA hP
    simp [terminal_score, hA, hP]
  · intro b' p
    have := score_position_bounds b' p
    constructor <;> linarith [this.1, this.2]

/-- Witness for C1 applied at a board with a computer win, depth 4. -/
theorem minimax_terminal_values_witness :
    (winning_move boardAIWin AI_PIECE = true →
      minimax rngFirst 4 boardAIWin true = (none, XScore.fin 100000000000000)) ∧
    (winning_move boardAIWin AI_PIECE = false → winning_move boardAIWin PLAYER_PIECE = true →
      minimax rngFirst 4 boardAIWin true = (none, XScore.fin (-10000000000000))) ∧
    (winning_move boardAIWin AI_PIECE = false → winning_move boardAIWin PLAYER_PIECE = false →
      minimax rngFirst 4 boardAIWin true = (none, XScore.fin 0)) ∧
    ∀ (b' : Board) (p : Cell),
      -10000000000000 < score_position b' p ∧ score_position b' p < 100000000000000 :=
  minimax_terminal_values rngFirst boardAIWin 4 true (by decide)

/-- Counterexample to C1 as stated: the loss score is `−10^13`, whose
magnitude is not the win magnitude `10^14`. -/
theorem minimax_loss_magnitude_counterexample :
    minimax rngFirst 4 boardPlayerWin true = (none, XScore.fin (-10000000000000)) ∧
    minimax rngFirst 4 boardAIWin true = (none, XScore.fin 100000000000000) ∧
    (10000000000000 : Int) ≠ 100000000000000 := by
  refine ⟨by decide, by decide, by norm_num⟩

/-- C6: the search result is deterministic: two calls on the same board,
depth and flag agree whatever the `random.choice` outcomes were. -/
theorem minimax_idempotent (rng₁ rng₂ : List Nat → Nat) (b : Board) (d : Nat) (m : Bool)
    (hmoves : get_valid_locations b ≠ []) :
    minimax rng₁ d b m = minimax rng₂ d b m :=
  minimax_rng_eq rng₁ rng₂ d b m

/-- Witness for C6 at the empty board, depth 2, with two different choice
functions. -/
theorem minimax_idempotent_witness :
    get_valid_locations create_board ≠ [] ∧
      minimax rngFirst 2 create_board true = minimax rngLast 2 create_board true :=
  ⟨by decide, minimax_idempotent rngFirst rngLast create_board 2 true (by decide)⟩

/-- C10: when both sides have a four-in-a-row, the computer-win check is
made first, so `minimax` reports a computer win. -/
theorem minimax_double_win_ai_precedence (rng : List Nat → Nat) (b : Board) (d : Nat)
    (m : Bool) (hA : winning_move b AI_PIECE = true)
    (hP : winning_move b PLAYER_PIECE = true) :
    minimax rng d b m = (none, XScore.fin 100000000000000) := by
  have hterm : is_terminal_node b = true := by
    simp [is_terminal_node, hA, hP]
  rw [minimax_terminal rng d b m hterm]
  simp [terminal_score, hA]

/-- Witness for C10 at a board where both sides have a four-in-a-row. -/
theorem minimax_double_win_ai_precedence_witness :
    winning_move boardBothWin AI_PIECE = true ∧
    winning_move boardBothWin PLAYER_PIECE = true ∧
      minimax rngFirst 4 boardBothWin true = (none, XScore.fin 100000000000000) :=
  ⟨by decide, by decide,
    minimax_double_win_ai_precedence rngFirst boardBothWin 4 true (by decide) (by decide)⟩

/-- `find?` over `range n` returns the least index satisfying `p`:
everything below the hit fails `p`. -/
theorem find?_range_min (p : Nat → Bool) :
    ∀ (n a : Nat), (List.range n).find? p = some a → ∀ k, k < a → p k = false := by
  intro n
  induction n with
  | zero =>
    intro a h k hk
    simp at h
  | succ n ih =>
    intro a h k hk
    rw [List.range_succ, List.find?_append] at h
    cases hfind : (List.range n).find? p with
    | some x =>
      rw [hfind] at h
      simp only [Option.or, Option.some.injEq] at h
      exact ih a (by rw [hfind, h]) k hk
    | none =>
      rw [hfind] at h
      simp only [Option.none_or] at h
      have hall := List.find?_eq_none.mp hfind
      by_cases hpn : p n = true
      · rw [List.find?_cons_of_pos _ hpn] at h
        cases h
        have hkmem : k ∈ List.range n := List.mem_range.mpr hk
        have := hall k hkmem
        simpa using this
      · rw [List.find?_cons_of_neg _ (by simpa using hpn)] at h
        cases h

/-- When a column's top cell is empty, `get_next_open_row` returns the
lowest empty row of that column. -/
theorem get_next_open_row_spec (b : Board) (col : Nat)
    (hv : is_valid_location b col = true) :
    ∃ row, get_next_open_row b col = some row ∧ row < ROW_COUNT ∧
      b row col = EMPTY ∧ ∀ r < row, b r col ≠ EMPTY := by
  have h5 : b 5 col = EMPTY := by
    simpa [is_valid_location, ROW_COUNT] using hv
  cases hfind : get_next_open_row b col with
  | none =>
    exfalso
    unfold get_next_open_row at hfind
    have := List.find?_eq_none.mp hfind 5 (by simp [ROW_COUNT])
    simp [h5] at this
  | some row =>
    unfold get_next_open_row at hfind
    refine ⟨row, rfl, ?_, ?_, ?_⟩
    · exact List.mem_range.mp (List.mem_of_find?_eq_some hfind)
    · have := List.find?_some hfind
      simpa using this
    · intro r hr
      have := find?_range_min _ _ _ hfind r hr
      simpa using this

/-- C7: on a board satisfying the gravity invariant, dropping into a
column with empty top cell writes the piece into the lowest empty row,
and the gravity invariant still holds afterwards. -/
theorem drop_preserves_gravity (b : Board) (col : Nat) (piece : Cell)
    (hcol : col < COLUMN_COUNT) (hg : gravity_invariant b)
    (hv : is_valid_location b col = true) :
    ∃ row, get_next_open_row b col = some row ∧ row < ROW_COUNT ∧
      b row col = EMPTY ∧ (∀ r < row, b r col ≠ EMPTY) ∧
      (drop_piece b row col piece) row col = piece ∧
      gravity_invariant (drop_piece b row col piece) := by
  obtain ⟨row, hfind, hrow, hempty, hmin⟩ := get_next_open_row_spec b col hv
  have habove : ∀ r, row ≤ r → r < ROW_COUNT → b r col = EMPTY := by
    have hstep : ∀ r, r + 1 < ROW_COUNT → b r col = EMPTY → b (r+1) col = EMPTY := by
      intro r hr1 he
      by_contra hne
      exact absurd he (hg col hcol r (by omega) hne)
    intro r hr hrc
    induction r, hr using Nat.le_induction with
    | base => exact hempty
    | succ n hn ihn => exact hstep n hrc (ihn (by omega))
  have hdrop : ∀ (r c : Nat), ¬(r = row ∧ c = col) →
      drop_piece b row col piece r c = b r c := by
    intro r c h
    unfold drop_piece
    rw [if_neg h]
  refine ⟨row, hfind, hrow, hempty, hmin, by simp [drop_piece], ?_⟩
  intro c hc r hr hne
  by_cases hcc : c = col
  · subst hcc
    by_cases h1 : r + 1 = row
    · have hbr : b r c ≠ EMPTY := hmin r (by omega)
      rw [hdrop r c (by rintro ⟨hx, -⟩; omega)]
      exact hbr
    · by_cases h2 : row < r + 1
      · exfalso
        apply hne
        rw [hdrop (r+1) c (by rintro ⟨hx, -⟩; omega)]
        exact habove (r+1) (by omega) (by omega)
      · have hb : b (r+1) c ≠ EMPTY := by
          rw [hdrop (r+1) c (by rintro ⟨hx, -⟩; omega)] at hne
          exact hne
        have hgc := hg c hc r hr hb
        rw [hdrop r c (by rintro ⟨hx, -⟩; omega)]
        exact hgc
  · have hb : b (r+1) c ≠ EMPTY := by
      rw [hdrop (r+1) c (by rintro ⟨-, hx⟩; exact hcc hx)] at hne
      exact hne
    have hgc := hg c hc r hr hb
    rw [hdrop r c (by rintro ⟨-, hx⟩; exact hcc hx)]
    exact hgc

/-- Witness for C7: dropping the computer's piece into column 0 of the
empty board. -/
theorem drop_preserves_gravity_witness :
    ∃ row, get_next_open_row create_board 0 = some row ∧ row < ROW_COUNT ∧
      create_board row 0 = EMPTY ∧ (∀ r < row, create_board r 0 ≠ EMPTY) ∧
      (drop_piece create_board row 0 AI_PIECE) row 0 = AI_PIECE ∧
      gravity_invariant (drop_piece create_board row 0 AI_PIECE) :=
  drop_preserves_gravity create_board 0 AI_PIECE (by decide)
    (fun _ _ _ _ hne => absurd rfl hne) (by decide)

/-- Transport a cell fact along index equalities. -/
theorem cell_eq_trans (b : Board) (p : Cell) (x y u v : Nat)
    (hx : x = u) (hy : y = v) (h : b u v = p) : b x y = p := by
  rw [hx, hy]
  exact h

/-- C9: the win detector is symmetric under 180-degree board rotation. -/
theorem winning_move_rotate180 (b : Board) (p : Cell) :
    winning_move (rotate180 b) p = winning_move b p := by
  rw [Bool.eq_iff_iff]
  constructor
  · intro h
    simp only [winning_move, List.any_eq_true, List.mem_range, List.mem_range'_1,
      Bool.or_eq_true, Bool.and_eq_true, beq_iff_eq, ROW_COUNT, COLUMN_COUNT,
      rotate180] at h ⊢
    norm_num at h ⊢
    rcases h with ((⟨c, hc, r, hr, ⟨⟨h0, h1⟩, h2⟩, h3⟩ |
        ⟨c, hc, r, hr, ⟨⟨h0, h1⟩, h2⟩, h3⟩) |
        ⟨c, hc, r, hr, ⟨⟨h0, h1⟩, h2⟩, h3⟩) |
        ⟨c, hc, r, ⟨hr3, hr6⟩, ⟨⟨h0, h1⟩, h2⟩, h3⟩
    · exact Or.inl (Or.inl (Or.inl ⟨3 - c, by omega, 5 - r, by omega,
        ⟨⟨cell_eq_trans b p _ _ _ _ (by omega) (by omega) h3,
          cell_eq_trans b p _ _ _ _ (by omega) (by omega) h2⟩,
          cell_eq_trans b p _ _ _ _ (by omega) (by omega) h1⟩,
        cell_eq_trans b p _ _ _ _ (by omega) (by omega) h0⟩))
    · exact Or.inl (Or.inl (Or.inr ⟨6 - c, by omega, 2 - r, by omega,
        ⟨⟨cell_eq_trans b p _ _ _ _ (by omega) (by omega) h3,
          cell_eq_trans b p _ _ _ _ (by omega) (by omega) h2⟩,
          cell_eq_trans b p _ _ _ _ (by omega) (by omega) h1⟩,
        cell_eq_trans b p _ _ _ _ (by omega) (by omega) h0⟩))
    · exact Or.inl (Or.inr ⟨3 - c, by omega, 2 - r, by omega,
        ⟨⟨cell_eq_trans b p _ _ _ _ (by omega) (by omega) h3,
          cell_eq_trans b p _ _ _ _ (by omega) (by omega) h2⟩,
          cell_eq_trans b p _ _ _ _ (by omega) (by omega) h1⟩,
        cell_eq_trans b p _ _ _ _ (by omega) (by omega) h0⟩)
    · exact Or.inr ⟨3 - c, by omega, 8 - r, ⟨by omega, by omega⟩,
        ⟨⟨cell_eq_trans b p _ _ _ _ (by omega) (by omega) h3,
          cell_eq_trans b p _ _ _ _ (by omega) (by omega) h2⟩,
          cell_eq_trans b p _ _ _ _ (by omega) (by omega) h1⟩,
        cell_eq_trans b p _ _ _ _ (by omega) (by omega) h0⟩
  · intro h
    simp only [winning_move, List.any_eq_true, List.mem_range, List.mem_range'_1,
      Bool.or_eq_true, Bool.and_eq_true, beq_iff_eq, ROW_COUNT, COLUMN_COUNT,
      rotate180] at h ⊢
    norm_num at h ⊢
    rcases h with ((⟨c, hc, r, hr, ⟨⟨h0, h1⟩, h2⟩, h3⟩ |
        ⟨c, hc, r, hr, ⟨⟨h0, h1⟩, h2⟩, h3⟩) |
        ⟨c, hc, r, hr, ⟨⟨h0, h1⟩, h2⟩, h3⟩) |
        ⟨c, hc, r, ⟨hr3, hr6⟩, ⟨⟨h0, h1⟩, h2⟩, h3⟩
    · exact Or.inl (Or.inl (Or.inl ⟨3 - c, by omega, 5 - r, by omega,
        ⟨⟨cell_eq_trans b p _ _ _ _ (by omega) (by omega) h3,
          cell_eq_trans b p _ _ _ _ (by omega) (by omega) h2⟩,
          cell_eq_trans b p _ _ _ _ (by omega) (by omega) h1⟩,
        cell_eq_trans b p _ _ _ _ (by omega) (by omega) h0⟩))
    · exact Or.inl (Or.inl (Or.inr ⟨6 - c, by omega, 2 - r, by omega,
        ⟨⟨cell_eq_trans b p _ _ _ _ (by omega) (by omega) h3,
          cell_eq_trans b p _ _ _ _ (by omega) (by omega) h2⟩,
          cell_eq_trans b p _ _ _ _ (by omega) (by omega) h1⟩,
        cell_eq_trans b p _ _ _ _ (by omega) (by omega) h0⟩))
    · exact Or.inl (Or.inr ⟨3 - c, by omega, 2 - r, by omega,
        ⟨⟨cell_eq_trans b p _ _ _ _ (by omega) (by omega) h3,
          cell_eq_trans b p _ _ _ _ (by omega) (by omega) h2⟩,
          cell_eq_trans b p _ _ _ _ (by omega) (by omega) h1⟩,
        cell_eq_trans b p _ _ _ _ (by omega) (by omega) h0⟩)
    · exact Or.inr ⟨3 - c, by omega, 8 - r, ⟨by omega, by omega⟩,
        ⟨⟨cell_eq_trans b p _ _ _ _ (by omega) (by omega) h3,
          cell_eq_trans b p _ _ _ _ (by omega) (by omega) h2⟩,
          cell_eq_trans b p _ _ _ _ (by omega) (by omega) h1⟩,
        cell_eq_trans b p _ _ _ _ (by omega) (by omega) h0⟩

/-- Witness for C4 at a concrete 4-cell window. -/
theorem evaluate_window_table_witness :
    ([Cell.X, Cell.X, Cell.X, Cell.Dash] : List Cell).length = 4 ∧
      evaluate_window [Cell.X, Cell.X, Cell.X, Cell.Dash] AI_PIECE =
        evaluate_window_claim [Cell.X, Cell.X, Cell.X, Cell.Dash] AI_PIECE :=
  ⟨by decide, evaluate_window_table [Cell.X, Cell.X, Cell.X, Cell.Dash] AI_PIECE (by decide)⟩
